import Mathlib

/-!
# Verification of the portfolio unrealized-profit reconstruction engine

Shallow embedding of the core algorithmic content of
`src/web_app/frontend/src/pages/Portfolio.jsx`:

* numeric coercion (`toFiniteNumber`),
* the sparkline fallback synthesizer (`buildSparklineSeries`),
* the holdings/market merge (`mergeHoldingsWithMarket`),
* day bucketing (`bucketTimestamp`),
* the portfolio fallback series (`buildPortfolioFallbackSeries`),
* the profit-series reconstruction inside `fetchChartData`
  (accumulation, now-bucket fallback, sorting, re-baseline).

JavaScript numbers are modelled as exact rationals.  A dedicated value
type `JVal` distinguishes the cases the source code distinguishes at
runtime: finite numbers, non-finite numbers (`NaN`/`Infinity`, which
behave identically under every `Number.isFinite` / `toFiniteNumber`
check and under the arithmetic these code paths perform: any arithmetic
touching them stays non-finite and is later filtered), `null` and
`undefined` (which differ from non-finite numbers under `??` and under
`Number(x)` coercion: `Number(null) = 0`, `Number(undefined) = NaN`).
-/

/-- A JavaScript value as far as the portfolio engine's numeric code
observes it: a finite number, a non-finite number (`NaN` or `±Infinity`),
`null`, or `undefined` (also standing for any absent field). -/
inductive JVal where
  | num (x : ℚ)
  | nan
  | vnull
  | vundef
  deriving DecidableEq, Repr

/-- `toFiniteNumber(value)`: `Number(value)`, then `null` unless finite.
Note `Number(null) = 0`, so a `null` input coerces to `0`. -/
def toFiniteNumber : JVal → Option ℚ
  | .num x => some x
  | .nan => none
  | .vnull => some 0
  | .vundef => none

/-- `Number.isFinite(value)` (no coercion: `false` on `null`/`undefined`). -/
def JVal.isFiniteNum : JVal → Bool
  | .num _ => true
  | _ => false

/-- `FALLBACK_SPARKLINE_POINTS = 48`. -/
def FALLBACK_SPARKLINE_POINTS : ℕ := 48

/-- `ONE_HOUR_MS = 60 * 60 * 1000` (milliseconds, as a rational). -/
def ONE_HOUR_MS : ℚ := 60 * 60 * 1000

/-- `buildSparklineSeries(series, fallbackValue)`.  `series` is `none`
when the argument is not an array (`Array.isArray` fails). -/
def buildSparklineSeries (series : Option (List JVal)) (fallbackValue : JVal) : List ℚ :=
  let cleaned := (series.getD []).filterMap toFiniteNumber
  if 2 ≤ cleaned.length then
    cleaned
  else
    match cleaned with
    | [x] => List.replicate (max FALLBACK_SPARKLINE_POINTS 1) x
    | _ =>
      match toFiniteNumber fallbackValue with
      | some base => List.replicate FALLBACK_SPARKLINE_POINTS base
      | none => []

/-- One transaction record as stored on a holding; the four monetary
fields are the ones `mergeHoldingsWithMarket` converts. -/
structure Tx where
  price : JVal
  totalCost : JVal
  totalProceeds : JVal
  costBasis : JVal
  deriving DecidableEq, Repr

/-- A normalized API holding as fed into `mergeHoldingsWithMarket`
(presentation-only string fields `name`/`symbol`/`image` and the
`createdAt`/`updatedAt` passthroughs are omitted; asset ids are ℕ).
`transactions = none` models a non-array `transactions` field. -/
structure RawHolding where
  id : ℕ
  quantity : JVal
  avgBuyPrice : JVal
  transactions : Option (List Tx)
  deriving DecidableEq, Repr

/-- One market-data entry (`marketData.find((m) => m.id === holding.id)`).
`sparkline_price` models `m.sparkline_in_7d?.price` (`none` when the
chain is absent or not an array). -/
structure MarketEntry where
  id : ℕ
  current_price : JVal
  ch24h : JVal
  ch7d : JVal
  sparkline_price : Option (List JVal)
  deriving DecidableEq, Repr

/-- The enriched holding produced by `mergeHoldingsWithMarket`
(string presentation fields omitted, as in `RawHolding`). -/
structure MergedHolding where
  id : ℕ
  quantity : ℚ
  avgBuyPrice : ℚ
  avgBuyPriceUsd : ℚ
  currentPrice : ℚ
  ch24h : Option ℚ
  ch7d : Option ℚ
  sparkline : List ℚ
  transactions : Option (List Tx)
  costBasisDisplay : ℚ
  deriving DecidableEq, Repr

/-- `convertUsd(value)` closed over `usdRate`:
`null` when `toFiniteNumber(value)` is `null`; the bare number when the
rate is not a finite number or `≤ 0`; otherwise `num * usdRate`. -/
def convertUsd (usdRate : JVal) (value : JVal) : Option ℚ :=
  (toFiniteNumber value).map (fun num =>
    match usdRate with
    | .num r => if r ≤ 0 then num else num * r
    | _ => num)

/-- The body of the `holdings.map` in `mergeHoldingsWithMarket`, for one
holding. -/
def mergeOne (marketData : List MarketEntry) (usdRate : JVal)
    (holding : RawHolding) : MergedHolding :=
  let market := marketData.find? (fun m => m.id = holding.id)
  let quantity := (toFiniteNumber holding.quantity).getD 0
  let avgBuyPriceUsd := (toFiniteNumber holding.avgBuyPrice).getD 0
  let rawCurrentPrice :=
    toFiniteNumber (match market with
      | some m => m.current_price
      | none => JVal.vundef)
  let fallbackPrice : JVal :=
    match rawCurrentPrice with
    | some p =>
        if 0 < p then JVal.num p
        else if 0 < avgBuyPriceUsd then JVal.num avgBuyPriceUsd else JVal.vnull
    | none =>
        if 0 < avgBuyPriceUsd then JVal.num avgBuyPriceUsd else JVal.vnull
  -- `rawCurrentPrice != null ? rawCurrentPrice : avgBuyPriceUsd != null ? avgBuyPriceUsd : 0`;
  -- `avgBuyPriceUsd` is never null (it was coerced with `?? 0`).
  let resolvedPrice : ℚ := rawCurrentPrice.getD avgBuyPriceUsd
  let avgBuyPriceDisplay :=
    (convertUsd usdRate (JVal.num avgBuyPriceUsd)).getD avgBuyPriceUsd
  { id := holding.id
    quantity := quantity
    avgBuyPrice := avgBuyPriceDisplay
    avgBuyPriceUsd := avgBuyPriceUsd
    currentPrice := resolvedPrice
    ch24h := toFiniteNumber (match market with
      | some m => m.ch24h
      | none => JVal.vundef)
    ch7d := toFiniteNumber (match market with
      | some m => m.ch7d
      | none => JVal.vundef)
    sparkline := buildSparklineSeries
      (match market with
        | some m => m.sparkline_price
        | none => none)
      fallbackPrice
    transactions :=
      match holding.transactions with
      | some txs => some (txs.map (fun tx =>
          { tx with
            price := match convertUsd usdRate tx.price with
              | some q => JVal.num q
              | none => tx.price
            totalCost := match convertUsd usdRate tx.totalCost with
              | some q => JVal.num q
              | none => tx.totalCost
            totalProceeds := match convertUsd usdRate tx.totalProceeds with
              | some q => JVal.num q
              | none => tx.totalProceeds
            costBasis := match convertUsd usdRate tx.costBasis with
              | some q => JVal.num q
              | none => tx.costBasis }))
      | none => holding.transactions
    costBasisDisplay :=
      (convertUsd usdRate (JVal.num (quantity * avgBuyPriceUsd))).getD
        (quantity * avgBuyPriceUsd) }

/-- `mergeHoldingsWithMarket(holdings, marketData, usdRate, ...)`;
`holdings = none` models a non-array argument (the `displayCurrency`
argument only feeds omitted string fields). -/
def mergeHoldingsWithMarket (holdings : Option (List RawHolding))
    (marketData : List MarketEntry) (usdRate : JVal) : List MergedHolding :=
  match holdings with
  | none => []
  | some hs => hs.map (mergeOne marketData usdRate)

/-- `bucketTimestamp(timestamp)`: `Math.floor(rawTs / bucketSizeMs) * bucketSizeMs`
with `bucketSizeMs = 24 * ONE_HOUR_MS`; `null` when not numeric. -/
def bucketTimestamp (timestamp : JVal) : Option ℚ :=
  (toFiniteNumber timestamp).map (fun rawTs =>
    (⌊rawTs / (24 * ONE_HOUR_MS)⌋ : ℚ) * (24 * ONE_HOUR_MS))

/-- A raw provider chart point: `some (ts, price)` for an array of length
≥ 2 (extra elements are never read), `none` for a malformed entry
(`!Array.isArray(point) || point.length < 2`). -/
abbrev RawChartPoint := Option (JVal × JVal)

/-- The fields of a holding that the chart reconstruction in
`fetchChartData` reads, kept as raw values because the code re-coerces
them defensively (`toFiniteNumber(...) ?? 0`, `quantity ?? 0`). -/
structure ChartHolding where
  quantity : JVal
  avgBuyPrice : JVal
  currentPrice : JVal
  sparkline : List ℚ
  deriving DecidableEq, Repr

/-- A holding paired with its fetched market-chart response.  The source
carries these as two index-aligned arrays (`holdings` and
`allChartData`, with `allChartData[index]`); the pairing is the
alignment invariant the caller maintains. -/
abbrev ChartItem := ChartHolding × List RawChartPoint

/-- One point of the profit chart.  The source points also carry an
`invested` field and a locale-formatted `date` label, both
presentation-only and never read by the algorithm; they are omitted. -/
structure TimePoint where
  timestamp : ℚ
  value : ℚ
  deriving DecidableEq, Repr

/-- `Map.get(k)` on an association list with set-semantics keys. -/
def mapGet (m : List (ℚ × ℚ)) (k : ℚ) : Option ℚ :=
  (m.find? (fun e => e.1 = k)).map Prod.snd

/-- `Map.set(k, v)`: replaces any existing entry for `k`.  (JS `Map`
keeps insertion order; the code only ever reads these maps by key or
after an explicit sort by key, so entry order is irrelevant.) -/
def mapSet (m : List (ℚ × ℚ)) (k v : ℚ) : List (ℚ × ℚ) :=
  (k, v) :: m.filter (fun e => e.1 ≠ k)

/-- `Set.add(x)` on a duplicate-free list. -/
def setAdd (s : List ℚ) (x : ℚ) : List ℚ :=
  if x ∈ s then s else s ++ [x]

/-- The accumulator state of the reconstruction loop:
`portfolioProfitMap` and `allTimestamps`. -/
structure AccState where
  profitMap : List (ℚ × ℚ)
  allTimestamps : List ℚ
  deriving DecidableEq, Repr

/-- `bucketSizeMs = 24 * ONE_HOUR_MS`. -/
def nowBucketOf (now : ℚ) : ℚ :=
  (⌊now / (24 * ONE_HOUR_MS)⌋ : ℚ) * (24 * ONE_HOUR_MS)

/-- `windowStart = nowTs - (chartDays - 1) * 24 * 60 * 60 * 1000`. -/
def windowStartOf (now chartDays : ℚ) : ℚ :=
  now - (chartDays - 1) * (24 * ONE_HOUR_MS)

/-- The sparkline fallback applied to each fetched chart (source lines
858-870): an empty response is replaced by the holding's sparkline
spread evenly backward from `now` across `chartDays`. -/
def resolveChartData (holding : ChartHolding) (data : List RawChartPoint)
    (now chartDays : ℚ) : List RawChartPoint :=
  if data ≠ [] then data
  else if holding.sparkline = [] then []
  else
    let len := holding.sparkline.length
    let spanSteps : ℕ := max (len - 1) 1
    let stepMs : ℚ := chartDays * 24 * 60 * 60 * 1000 / (spanSteps : ℚ)
    holding.sparkline.enum.map (fun p =>
      some (JVal.num (now - ((len - 1 - p.1 : ℕ) : ℚ) * stepMs), JVal.num p.2))

/-- The per-holding `priceByTimestamp` map (source lines 890-898):
malformed points, non-numeric timestamps, buckets before `windowStart`
and non-finite prices are skipped; later samples for the same bucket
overwrite earlier ones. -/
def buildPriceMap (windowStart : ℚ) (coinData : List RawChartPoint) : List (ℚ × ℚ) :=
  coinData.foldl (fun m point =>
    match point with
    | none => m
    | some (rawTs, rawPrice) =>
      match bucketTimestamp rawTs with
      | none => m
      | some timestamp =>
        if timestamp < windowStart then m
        else
          match toFiniteNumber rawPrice with
          | none => m
          | some price => mapSet m timestamp price) []

/-- Add `contribution` into the shared accumulator at `timestamp`:
`allTimestamps.add(t)` and `map.set(t, (map.get(t) ?? 0) + contribution)`. -/
def addProfitAt (st : AccState) (timestamp contribution : ℚ) : AccState :=
  { profitMap := mapSet st.profitMap timestamp
      ((mapGet st.profitMap timestamp).getD 0 + contribution)
    allTimestamps := setAdd st.allTimestamps timestamp }

/-- The `sortedPriceEntries.forEach` accumulation (source lines 906-913). -/
def accumulateEntries (qty avg : ℚ) (st : AccState) (entries : List (ℚ × ℚ)) : AccState :=
  entries.foldl (fun s e => addProfitAt s e.1 (qty * (e.2 - avg))) st

/-- The body of the `holdings.forEach` in `fetchChartData` (source lines
880-924) for one holding and its (already resolved) chart data. -/
def processHolding (nowBucket windowStart : ℚ) (st : AccState)
    (holding : ChartHolding) (coinData : List RawChartPoint) : AccState :=
  let qty := (toFiniteNumber holding.quantity).getD 0
  let avg := (toFiniteNumber holding.avgBuyPrice).getD 0
  if qty ≤ 0 then st
  else
    let priceByTimestamp := buildPriceMap windowStart coinData
    if priceByTimestamp = [] then st
    else
      let sortedPriceEntries :=
        List.insertionSort (fun a b : ℚ × ℚ => a.1 ≤ b.1) priceByTimestamp
      let st1 := accumulateEntries qty avg st sortedPriceEntries
      match toFiniteNumber holding.currentPrice with
      | some currentPrice => addProfitAt st1 nowBucket (qty * (currentPrice - avg))
      | none => st1

/-- The aggregate live-profit reduce (source lines 927-934). -/
def currentProfitOf (items : List ChartItem) : ℚ :=
  items.foldl (fun total it =>
    let qty := (toFiniteNumber it.1.quantity).getD 0
    let avg := (toFiniteNumber it.1.avgBuyPrice).getD 0
    let currentPrice := toFiniteNumber it.1.currentPrice
    if qty ≤ 0 then total
    else total + qty * (currentPrice.getD avg - avg)) 0

/-- Source lines 872-939: resolve each chart, run the per-holding
accumulation, then force a `nowBucket` entry from aggregate live profit
if no holding produced one.  (The source guards that step with
`Number.isFinite(currentProfit)`, identically true over exact
rationals.) -/
def accumulate (items : List ChartItem) (now chartDays : ℚ) : AccState :=
  let nowBucket := nowBucketOf now
  let windowStart := windowStartOf now chartDays
  let st := items.foldl (fun st it =>
    processHolding nowBucket windowStart st it.1
      (resolveChartData it.1 it.2 now chartDays)) ⟨[], []⟩
  if (mapGet st.profitMap nowBucket).isSome then st
  else
    { profitMap := mapSet st.profitMap nowBucket (currentProfitOf items)
      allTimestamps := setAdd st.allTimestamps nowBucket }

/-- Source lines 941-952: keep timestamps `≥ windowStart`, sort
ascending, read each bucket's accumulated value.  (The trailing
`Number.isFinite(point.value)` filter is identically true over exact
rationals and is omitted.) -/
def chartArrayOf (items : List ChartItem) (now chartDays : ℚ) : List TimePoint :=
  let st := accumulate items now chartDays
  let windowStart := windowStartOf now chartDays
  let sortedTimestamps := List.insertionSort (fun a b : ℚ => a ≤ b)
    (st.allTimestamps.filter (fun t => windowStart ≤ t))
  sortedTimestamps.map (fun t =>
    { timestamp := t, value := (mapGet st.profitMap t).getD 0 })

/-- `maxPoints` of the fallback synthesizer (source lines 248-251): the
longest sparkline among the holdings.  It is a list length, so the
source's `!Number.isFinite(maxPoints) || maxPoints <= 0` check reduces
to `maxPoints = 0`. -/
def fallbackMaxPoints (holdings : List ChartHolding) : ℕ :=
  holdings.foldl (fun length h => max length h.sparkline.length) 0

/-- `targetPoints = Math.max(maxPoints, Math.max(60, periodDays * 2))`
(source lines 255-256, with `minimumPoints` inlined). -/
def fallbackTargetPoints (holdings : List ChartHolding) (periodDays : ℚ) : ℚ :=
  max (fallbackMaxPoints holdings : ℚ) (max 60 (periodDays * 2))

/-- `steps = Math.max(1, targetPoints - 1)`;
`stepMs = steps > 0 ? (totalHours / steps) * ONE_HOUR_MS : ONE_HOUR_MS`
with `totalHours = periodDays * 24` (source lines 258-260). -/
def fallbackStepMs (holdings : List ChartHolding) (periodDays : ℚ) : ℚ :=
  if 0 < max 1 (fallbackTargetPoints holdings periodDays - 1) then
    periodDays * 24 / max 1 (fallbackTargetPoints holdings periodDays - 1) * ONE_HOUR_MS
  else ONE_HOUR_MS

/-- The `holdings.reduce` computing one fallback point's combined value
(source lines 264-277).  The reduce computes
`acc + (holding.quantity ?? 0) * price` on raw values, so a non-finite
quantity poisons the point's value, which the trailing
`Number.isFinite(point.value)` filter then drops — modelled by
`Option ℚ` with `none` for a non-finite value. -/
def fallbackValueAt (holdings : List ChartHolding) (periodDays : ℚ) (index : ℕ) :
    Option ℚ :=
  holdings.foldl (fun acc h =>
    match acc with
    | none => none
    | some a =>
      if h.sparkline = [] then some a
      else
        let scaledIndex : ℕ :=
          if 1 < h.sparkline.length then
            (min (round ((index : ℚ) /
                    max (fallbackTargetPoints holdings periodDays - 1) 1 *
                    ((h.sparkline.length : ℚ) - 1)))
                 ((h.sparkline.length : ℤ) - 1)).toNat
          else 0
        match h.sparkline.get? scaledIndex with
        | none => some a
        | some price =>
          match h.quantity with
          | .num q => some (a + q * price)
          | .nan => none
          | _ => some a) (some 0)

/-- `buildPortfolioFallbackSeries(holdings, periodDays)` (source lines
246-287), with the source's `Date.now()` passed explicitly as `now`.
`startTimestamp = now - stepMs * (targetPoints - 1)` is inlined into the
timestamp; the `Array.from({ length: targetPoints })` length coercion
truncates. -/
def buildPortfolioFallbackSeries (holdings : List ChartHolding) (periodDays now : ℚ) :
    List TimePoint :=
  if holdings = [] then []
  else if fallbackMaxPoints holdings = 0 then []
  else
    (List.range ⌊fallbackTargetPoints holdings periodDays⌋.toNat).filterMap
      (fun (index : ℕ) =>
        (fallbackValueAt holdings periodDays index).map (fun v =>
          { timestamp := now - fallbackStepMs holdings periodDays *
                (fallbackTargetPoints holdings periodDays - 1) +
              (index : ℚ) * fallbackStepMs holdings periodDays,
            value := v }))

/-- The `totalCostBasis` reduce (source lines 956-962). -/
def totalCostBasisOf (items : List ChartItem) : ℚ :=
  items.foldl (fun acc it =>
    acc + ((toFiniteNumber it.1.quantity).getD 0) *
      ((toFiniteNumber it.1.avgBuyPrice).getD 0)) 0

/-- Source lines 945-968: the accumulation-path chart array, or, when it
is empty, the portfolio-level fallback shifted by total cost basis. -/
def buildChartArray (items : List ChartItem) (now chartDays : ℚ) : List TimePoint :=
  let chartArray := chartArrayOf items now chartDays
  if chartArray = [] then
    let base := buildPortfolioFallbackSeries (items.map Prod.fst) chartDays now
    let totalCostBasis := totalCostBasisOf items
    base.map (fun p => { p with value := p.value - totalCostBasis })
  else chartArray

/-- The re-baseline step (source lines 970-976): subtract every value
from the last point's value.  (`baseline = last.value ?? 0`: the value
is always a number, so the `?? 0` is a no-op.) -/
def rebaseline (chartArray : List TimePoint) : List TimePoint :=
  match chartArray.getLast? with
  | none => chartArray
  | some lastPoint =>
    chartArray.map (fun p => { p with value := lastPoint.value - p.value })

/-- The full profit-series reconstruction of `fetchChartData` from the
resolved chart responses to the rendered series. -/
def buildProfitChart (items : List ChartItem) (now chartDays : ℚ) : List TimePoint :=
  rebaseline (buildChartArray items now chartDays)

/-! ## Helper lemmas about the map/set primitives -/

theorem mapGet_mapSet_self (m : List (ℚ × ℚ)) (k v : ℚ) :
    mapGet (mapSet m k v) k = some v := by
  simp [mapGet, mapSet, List.find?]

theorem find?_filter_keys_ne (m : List (ℚ × ℚ)) (k j : ℚ) (h : j ≠ k) :
    (m.filter (fun e => e.1 ≠ k)).find? (fun e => e.1 = j) =
      m.find? (fun e => e.1 = j) := by
  induction m with
  | nil => rfl
  | cons a l ih =>
    by_cases hk : a.1 = k
    · have hj : ¬ (a.1 = j) := by
        intro hh
        exact h (hh ▸ hk)
      rw [List.filter_cons_of_neg, List.find?_cons_of_neg]
      · exact ih
      · simpa using hj
      · simpa using hk
    · by_cases hj : a.1 = j
      · rw [List.filter_cons_of_pos, List.find?_cons_of_pos, List.find?_cons_of_pos]
        · simpa using hj
        · simpa using hj
        · simpa using hk
      · rw [List.filter_cons_of_pos, List.find?_cons_of_neg, List.find?_cons_of_neg]
        · exact ih
        · simpa using hj
        · simpa using hj
        · simpa using hk

theorem mapGet_mapSet_ne (m : List (ℚ × ℚ)) (k v j : ℚ) (h : j ≠ k) :
    mapGet (mapSet m k v) j = mapGet m j := by
  unfold mapGet mapSet
  rw [List.find?_cons_of_neg]
  · rw [find?_filter_keys_ne m k j h]
  · simpa using fun hh => h hh.symm

theorem mapSet_keys_nodup (m : List (ℚ × ℚ)) (k v : ℚ)
    (h : (m.map Prod.fst).Nodup) : ((mapSet m k v).map Prod.fst).Nodup := by
  simp only [mapSet, List.map_cons, List.nodup_cons]
  refine ⟨?_, ?_⟩
  · intro hk
    rcases List.mem_map.mp hk with ⟨e, he, hek⟩
    have hne := (List.mem_filter.mp he).2
    simp only [ne_eq, decide_not, Bool.not_eq_eq_eq_not, Bool.not_true,
      decide_eq_false_iff_not] at hne
    exact hne hek
  · exact h.sublist ((List.filter_sublist m).map Prod.fst)

/-- Whenever the fallback scalar coerces to a finite number under
`toFiniteNumber`, the synthesized series has at least two points. -/
theorem buildSparklineSeries_length_ge_two (series : Option (List JVal)) (v : JVal)
    (hv : toFiniteNumber v ≠ none) :
    2 ≤ (buildSparklineSeries series v).length := by
  rcases hv2 : toFiniteNumber v with _ | base
  · exact absurd hv2 hv
  · rcases hc : (series.getD []).filterMap toFiniteNumber with _ | ⟨x, tl⟩
    · simp [buildSparklineSeries, hc, hv2, FALLBACK_SPARKLINE_POINTS]
    · rcases tl with _ | ⟨y, l⟩
      · simp [buildSparklineSeries, hc, hv2, FALLBACK_SPARKLINE_POINTS]
      · have h2 : 2 ≤ ((series.getD []).filterMap toFiniteNumber).length := by
          rw [hc]
          simp
        simp [buildSparklineSeries, h2, hc]

/-- **C3** (counterexample): `buildSeries([], null)` does not return the
empty array: `Number(null)` coerces to `0`, so the fallback branch
produces a flat series of 48 zeros. -/
theorem c3_null_fallback_counterexample :
    buildSparklineSeries (some []) JVal.vnull = List.replicate 48 (0 : ℚ) ∧
    List.replicate 48 (0 : ℚ) ≠ ([] : List ℚ) := by
  constructor
  · rfl
  · decide

/-- **C3** (amended): `buildSeries([], 100)` is 48 copies of 100;
`buildSeries([5], null)` is 48 copies of 5; `buildSeries([], null)` is
48 copies of 0 (the numeric coercion maps `null` to 0, so the empty
array arises only when the fallback scalar has no numeric value, e.g.
`undefined` or `NaN`); and any input with at least two finite-filtered
samples is returned as exactly those filtered samples. -/
theorem c3_buildSeries_amended :
    buildSparklineSeries (some []) (JVal.num 100) = List.replicate 48 (100 : ℚ) ∧
    buildSparklineSeries (some [JVal.num 5]) JVal.vnull = List.replicate 48 (5 : ℚ) ∧
    buildSparklineSeries (some []) JVal.vnull = List.replicate 48 (0 : ℚ) ∧
    buildSparklineSeries (some []) JVal.vundef = [] ∧
    ∀ (series : List JVal) (fallbackValue : JVal),
      2 ≤ (series.filterMap toFiniteNumber).length →
      buildSparklineSeries (some series) fallbackValue =
        series.filterMap toFiniteNumber := by
  refine ⟨rfl, rfl, rfl, rfl, ?_⟩
  intro series fallbackValue h2
  unfold buildSparklineSeries
  simp [h2]

/-- **C3** witness: the ≥-2-samples clause applied at a concrete input. -/
theorem c3_buildSeries_witness :
    2 ≤ ([JVal.num 1, JVal.num 2].filterMap toFiniteNumber).length ∧
    buildSparklineSeries (some [JVal.num 1, JVal.num 2]) (JVal.num 7) =
      [JVal.num 1, JVal.num 2].filterMap toFiniteNumber := by
  refine ⟨by decide, ?_⟩
  exact c3_buildSeries_amended.2.2.2.2 [JVal.num 1, JVal.num 2] (JVal.num 7) (by decide)

/-- **C2** (counterexample): with a live quote price of exactly 0 (finite
but not `> 0`) and a stored average of 5, the claim demands
`currentPrice = 5`, but the merge resolves `currentPrice = 0`: the code
uses the live price whenever it is finite, with no `> 0` gate (the
`> 0` gate exists only for the separate sparkline fallback price). -/
theorem c2_currentPrice_counterexample :
    ((mergeHoldingsWithMarket
        (some [⟨0, JVal.num 1, JVal.num 5, none⟩])
        [⟨0, JVal.num 0, JVal.vundef, JVal.vundef, none⟩]
        (JVal.num 1)).map MergedHolding.currentPrice) = [(0 : ℚ)] ∧
    (0 : ℚ) ≠ 5 := by
  constructor
  · rfl
  · norm_num

/-- **C2** (amended): the merged holding's `currentPrice` equals the live
quote price whenever that price is finite — regardless of sign —
and otherwise equals the coerced `averageAcquisitionPrice`
(`toFiniteNumber(avgBuyPrice) ?? 0`, hence 0 when the stored average is
not numeric). -/
theorem c2_currentPrice_resolved (marketData : List MarketEntry) (usdRate : JVal)
    (holding : RawHolding) :
    (mergeOne marketData usdRate holding).currentPrice =
      match toFiniteNumber
          (match marketData.find? (fun m => m.id = holding.id) with
            | some m => m.current_price
            | none => JVal.vundef) with
      | some p => p
      | none => (toFiniteNumber holding.avgBuyPrice).getD 0 := by
  cases hc : toFiniteNumber
      (match marketData.find? (fun m => m.id = holding.id) with
        | some m => m.current_price
        | none => JVal.vundef) with
  | none => simp [mergeOne, hc]
  | some p => simp [mergeOne, hc]

/-- **C9**: the invariant holds in its strongest form: every holding the
merge produces has a `normalizedSeries` (sparkline) of length ≥ 2 — the
fallback scalar handed to the synthesizer is either a positive price, a
positive stored average, or `null` (which coerces to 0), so the
flat-series branch always fires when fewer than 2 samples survive.  In
particular the series has length ≥ 2 whenever any usable price signal
exists, and a length of 0 occurs only when no price signal exists (it
never occurs at all). -/
theorem c9_sparkline_length_invariant (hs : List RawHolding)
    (marketData : List MarketEntry) (usdRate : JVal) (m : MergedHolding)
    (hm : m ∈ mergeHoldingsWithMarket (some hs) marketData usdRate) :
    2 ≤ m.sparkline.length := by
  simp only [mergeHoldingsWithMarket] at hm
  rcases List.mem_map.mp hm with ⟨holding, _, rfl⟩
  have hproj : (mergeOne marketData usdRate holding).sparkline =
      buildSparklineSeries
        (match marketData.find? (fun m => m.id = holding.id) with
          | some m => m.sparkline_price
          | none => none)
        (match toFiniteNumber
            (match marketData.find? (fun m => m.id = holding.id) with
              | some m => m.current_price
              | none => JVal.vundef) with
          | some p =>
              if 0 < p then JVal.num p
              else if 0 < (toFiniteNumber holding.avgBuyPrice).getD 0 then
                JVal.num ((toFiniteNumber holding.avgBuyPrice).getD 0)
              else JVal.vnull
          | none =>
              if 0 < (toFiniteNumber holding.avgBuyPrice).getD 0 then
                JVal.num ((toFiniteNumber holding.avgBuyPrice).getD 0)
              else JVal.vnull) := by
    simp [mergeOne]
  rw [hproj]
  apply buildSparklineSeries_length_ge_two
  rcases toFiniteNumber
      (match marketData.find? (fun m => m.id = holding.id) with
        | some m => m.current_price
        | none => JVal.vundef) with _ | p
  · by_cases h : 0 < (toFiniteNumber holding.avgBuyPrice).getD 0
    · rw [if_pos h]
      simp [toFiniteNumber]
    · rw [if_neg h]
      simp [toFiniteNumber]
  · dsimp only
    by_cases hp : 0 < p
    · rw [if_pos hp]
      simp [toFiniteNumber]
    · rw [if_neg hp]
      by_cases h : 0 < (toFiniteNumber holding.avgBuyPrice).getD 0
      · rw [if_pos h]
        simp [toFiniteNumber]
      · rw [if_neg h]
        simp [toFiniteNumber]

/-- **C9** witness: a holding with no market data at all still gets a
sparkline of length ≥ 2. -/
theorem c9_sparkline_witness :
    (⟨0, JVal.num 1, JVal.vnull, none⟩ : RawHolding) ∈ ([⟨0, JVal.num 1, JVal.vnull, none⟩] : List RawHolding) ∧
    2 ≤ (mergeOne [] JVal.vundef ⟨0, JVal.num 1, JVal.vnull, none⟩).sparkline.length := by
  refine ⟨by decide, ?_⟩
  exact c9_sparkline_length_invariant [⟨0, JVal.num 1, JVal.vnull, none⟩] [] JVal.vundef
    (mergeOne [] JVal.vundef ⟨0, JVal.num 1, JVal.vnull, none⟩) (by simp [mergeHoldingsWithMarket])

/-- The condition under which `convertUsd` skips scaling:
`!Number.isFinite(usdRate) || usdRate <= 0`. -/
def rateInvalid (usdRate : JVal) : Prop :=
  match usdRate with
  | .num r => r ≤ 0
  | _ => True

theorem convertUsd_of_rateInvalid (usdRate : JVal) (h : rateInvalid usdRate) :
    convertUsd usdRate = toFiniteNumber := by
  funext v
  unfold convertUsd
  cases usdRate with
  | num r =>
      have hr : r ≤ 0 := h
      cases toFiniteNumber v with
      | none => rfl
      | some x => simp [hr]
  | nan => cases toFiniteNumber v <;> rfl
  | vnull => cases toFiniteNumber v <;> rfl
  | vundef => cases toFiniteNumber v <;> rfl

/-- **C10**: when the USD-to-display rate is not a finite number or is
`≤ 0`, the conversion closure is numerically the identity (it returns
the coerced input, never scaled), so the merged holding's displayed
average buy price equals its USD average, its displayed cost basis
equals `quantity * avgBuyPriceUsd`, and every transaction's converted
fields carry the unconverted USD amounts (a field that has no numeric
value at all is passed through untouched). -/
theorem c10_invalid_rate_identity (marketData : List MarketEntry)
    (usdRate : JVal) (holding : RawHolding) (hrate : rateInvalid usdRate) :
    convertUsd usdRate = toFiniteNumber ∧
    (mergeOne marketData usdRate holding).avgBuyPrice =
      (mergeOne marketData usdRate holding).avgBuyPriceUsd ∧
    (mergeOne marketData usdRate holding).costBasisDisplay =
      (mergeOne marketData usdRate holding).quantity *
        (mergeOne marketData usdRate holding).avgBuyPriceUsd ∧
    ∀ txs, holding.transactions = some txs →
      (mergeOne marketData usdRate holding).transactions =
        some (txs.map (fun tx =>
          { tx with
            price := ((toFiniteNumber tx.price).map JVal.num).getD tx.price
            totalCost := ((toFiniteNumber tx.totalCost).map JVal.num).getD tx.totalCost
            totalProceeds :=
              ((toFiniteNumber tx.totalProceeds).map JVal.num).getD tx.totalProceeds
            costBasis :=
              ((toFiniteNumber tx.costBasis).map JVal.num).getD tx.costBasis })) := by
  have hconv := convertUsd_of_rateInvalid usdRate hrate
  refine ⟨hconv, ?_, ?_, ?_⟩
  · simp [mergeOne, hconv, toFiniteNumber]
  · simp [mergeOne, hconv, toFiniteNumber]
  · intro txs htxs
    simp only [mergeOne, hconv, htxs]
    refine congrArg some (List.map_congr_left fun tx _ => ?_)
    cases h1 : toFiniteNumber tx.price <;>
      cases h2 : toFiniteNumber tx.totalCost <;>
        cases h3 : toFiniteNumber tx.totalProceeds <;>
          cases h4 : toFiniteNumber tx.costBasis <;>
            simp [h1, h2, h3, h4]

/-- **C10** witness: with a `null` rate (not a finite number), a
transaction's fields and the average price survive unconverted. -/
theorem c10_invalid_rate_witness :
    rateInvalid JVal.vnull ∧
    (mergeOne [] JVal.vnull
        ⟨0, JVal.num 2, JVal.num 3,
          some [⟨JVal.num 7, JVal.vundef, JVal.num 11, JVal.nan⟩]⟩).avgBuyPrice =
      (mergeOne [] JVal.vnull
        ⟨0, JVal.num 2, JVal.num 3,
          some [⟨JVal.num 7, JVal.vundef, JVal.num 11, JVal.nan⟩]⟩).avgBuyPriceUsd := by
  refine ⟨trivial, ?_⟩
  exact (c10_invalid_rate_identity [] JVal.vnull
    ⟨0, JVal.num 2, JVal.num 3,
      some [⟨JVal.num 7, JVal.vundef, JVal.num 11, JVal.nan⟩]⟩ trivial).2.1

/-- **C8**: within one holding's per-bucket price map, the last sample in
list order wins: appending a valid sample for bucket `b` makes its price
the map's value at `b`, whatever earlier samples said; and the map's
keys are duplicate-free, so exactly one price per bucket per asset
enters the portfolio accumulator. -/
theorem c8_last_write_wins (windowStart b t p : ℚ)
    (coinData : List RawChartPoint)
    (hb : bucketTimestamp (JVal.num t) = some b)
    (hw : ¬ b < windowStart) :
    mapGet (buildPriceMap windowStart
        (coinData ++ [some (JVal.num t, JVal.num p)])) b = some p ∧
    ∀ data : List RawChartPoint,
      ((buildPriceMap windowStart data).map Prod.fst).Nodup := by
  constructor
  · unfold buildPriceMap
    rw [List.foldl_append]
    simp only [List.foldl_cons, List.foldl_nil, hb, hw, if_false, toFiniteNumber]
    exact mapGet_mapSet_self _ b p
  · intro data
    unfold buildPriceMap
    induction data using List.reverseRecOn with
    | nil => simp
    | append_singleton l point ih =>
      rw [List.foldl_append]
      simp only [List.foldl_cons, List.foldl_nil]
      rcases point with _ | ⟨rawTs, rawPrice⟩
      · exact ih
      · rcases hbt : bucketTimestamp rawTs with _ | ts
        · simpa [hbt] using ih
        · rcases hfp : toFiniteNumber rawPrice with _ | price
          · simpa [hbt, hfp] using ih
          · by_cases hlt : ts < windowStart
            · simpa [hbt, hfp, hlt] using ih
            · simp only [hbt, hfp, hlt, if_false]
              exact mapSet_keys_nodup _ ts price ih

/-- **C8** witness: two samples in the same day bucket, the later (price
9) overwrites the earlier (price 4). -/
theorem c8_last_write_wins_witness :
    bucketTimestamp (JVal.num 3600000) = some 0 ∧ ¬ (0 : ℚ) < -86400000 ∧
    mapGet (buildPriceMap (-86400000)
        ([some (JVal.num 0, JVal.num 4)] ++ [some (JVal.num 3600000, JVal.num 9)])) 0 =
      some 9 := by
  have hb : bucketTimestamp (JVal.num 3600000) = some 0 := by
    simp only [bucketTimestamp, toFiniteNumber, Option.map_some]
    norm_num [ONE_HOUR_MS]
  refine ⟨hb, by norm_num, ?_⟩
  exact (c8_last_write_wins (-86400000) 0 3600000 9 [some (JVal.num 0, JVal.num 4)]
    hb (by norm_num)).1

theorem buildPriceMap_singleton (windowStart t p b : ℚ)
    (hb : bucketTimestamp (JVal.num t) = some b) (hw : ¬ b < windowStart) :
    buildPriceMap windowStart [some (JVal.num t, JVal.num p)] = [(b, p)] := by
  unfold buildPriceMap
  simp [hb, hw, toFiniteNumber, mapSet]

/-- Processing a holding with a single valid in-window sample at bucket
`b ≠ nowBucket` adds exactly `qty * (price - avg)` into the shared
accumulator at `b`. -/
theorem processHolding_single (nowBucket windowStart : ℚ) (st : AccState)
    (q a t p b : ℚ) (cp : JVal) (sp : List ℚ)
    (hq : 0 < q)
    (hb : bucketTimestamp (JVal.num t) = some b)
    (hw : ¬ b < windowStart)
    (hnb : b ≠ nowBucket) :
    mapGet (processHolding nowBucket windowStart st
        ⟨JVal.num q, JVal.num a, cp, sp⟩ [some (JVal.num t, JVal.num p)]).profitMap b =
      some ((mapGet st.profitMap b).getD 0 + q * (p - a)) := by
  have hpm := buildPriceMap_singleton windowStart t p b hb hw
  have hnumq : toFiniteNumber (JVal.num q) = some q := rfl
  have hnuma : toFiniteNumber (JVal.num a) = some a := rfl
  simp only [processHolding, hnumq, hnuma, Option.getD_some, hpm]
  rw [if_neg (not_le.mpr hq)]
  rw [if_neg (by simp : ¬ ([(b, p)] : List (ℚ × ℚ)) = [])]
  have hsort : List.insertionSort (fun x y : ℚ × ℚ => x.1 ≤ y.1) [(b, p)] = [(b, p)] := rfl
  rw [hsort]
  simp only [accumulateEntries, List.foldl_cons, List.foldl_nil]
  cases hcp : toFiniteNumber cp with
  | none =>
      simp only [addProfitAt]
      exact mapGet_mapSet_self _ b _
  | some c =>
      simp only [addProfitAt]
      rw [mapGet_mapSet_ne _ _ _ _ hnb]
      exact mapGet_mapSet_self _ b _

/-- **C6**: two holdings, one valid sample each, both bucketing to the
same day bucket `b` (inside the window and distinct from the now
bucket): the portfolio accumulator at `b` is the sum of the two
contributions `q1*(p1-a1) + q2*(p2-a2)` — contributions add across
holdings rather than overwrite. -/
theorem c6_bucket_summation (q1 a1 p1 t1 q2 a2 p2 t2 now chartDays b : ℚ)
    (cp1 cp2 : JVal) (sp1 sp2 : List ℚ)
    (hq1 : 0 < q1) (hq2 : 0 < q2)
    (hb1 : bucketTimestamp (JVal.num t1) = some b)
    (hb2 : bucketTimestamp (JVal.num t2) = some b)
    (hw : ¬ b < windowStartOf now chartDays)
    (hnb : b ≠ nowBucketOf now) :
    mapGet (accumulate
        [(⟨JVal.num q1, JVal.num a1, cp1, sp1⟩, [some (JVal.num t1, JVal.num p1)]),
         (⟨JVal.num q2, JVal.num a2, cp2, sp2⟩, [some (JVal.num t2, JVal.num p2)])]
        now chartDays).profitMap b =
      some (q1 * (p1 - a1) + q2 * (p2 - a2)) := by
  have hres1 : resolveChartData ⟨JVal.num q1, JVal.num a1, cp1, sp1⟩
      [some (JVal.num t1, JVal.num p1)] now chartDays = [some (JVal.num t1, JVal.num p1)] := by
    simp [resolveChartData]
  have hres2 : resolveChartData ⟨JVal.num q2, JVal.num a2, cp2, sp2⟩
      [some (JVal.num t2, JVal.num p2)] now chartDays = [some (JVal.num t2, JVal.num p2)] := by
    simp [resolveChartData]
  have h1 := processHolding_single (nowBucketOf now) (windowStartOf now chartDays)
    ⟨[], []⟩ q1 a1 t1 p1 b cp1 sp1 hq1 hb1 hw hnb
  have h2 := processHolding_single (nowBucketOf now) (windowStartOf now chartDays)
    (processHolding (nowBucketOf now) (windowStartOf now chartDays) ⟨[], []⟩
      ⟨JVal.num q1, JVal.num a1, cp1, sp1⟩ [some (JVal.num t1, JVal.num p1)])
    q2 a2 t2 p2 b cp2 sp2 hq2 hb2 hw hnb
  have hkey : mapGet (processHolding (nowBucketOf now) (windowStartOf now chartDays)
      (processHolding (nowBucketOf now) (windowStartOf now chartDays) ⟨[], []⟩
        ⟨JVal.num q1, JVal.num a1, cp1, sp1⟩ [some (JVal.num t1, JVal.num p1)])
      ⟨JVal.num q2, JVal.num a2, cp2, sp2⟩
      [some (JVal.num t2, JVal.num p2)]).profitMap b =
      some (q1 * (p1 - a1) + q2 * (p2 - a2)) := by
    rw [h2, h1]
    have hempty : mapGet (AccState.profitMap ⟨[], []⟩) b = none := rfl
    rw [hempty]
    simp only [Option.getD_none, Option.getD_some, zero_add]
  simp only [accumulate, List.foldl_cons, List.foldl_nil, hres1, hres2]
  by_cases hcase : (mapGet (processHolding (nowBucketOf now) (windowStartOf now chartDays)
      (processHolding (nowBucketOf now) (windowStartOf now chartDays) ⟨[], []⟩
        ⟨JVal.num q1, JVal.num a1, cp1, sp1⟩ [some (JVal.num t1, JVal.num p1)])
      ⟨JVal.num q2, JVal.num a2, cp2, sp2⟩
      [some (JVal.num t2, JVal.num p2)]).profitMap (nowBucketOf now)).isSome
  · rw [if_pos hcase]
    exact hkey
  · rw [if_neg hcase]
    show mapGet (mapSet _ (nowBucketOf now) _) b = _
    rw [mapGet_mapSet_ne _ _ _ _ hnb]
    exact hkey

theorem bucketTimestamp_num (t : ℚ) :
    bucketTimestamp (JVal.num t) =
      some ((⌊t / (24 * ONE_HOUR_MS)⌋ : ℚ) * (24 * ONE_HOUR_MS)) := rfl

/-- **C6** witness: qty 2 @ avg 100 with sample price 110, and qty 1 @
avg 50 with sample price 60, both bucketing to day 0: the accumulator at
bucket 0 holds `2*(110-100) + 1*(60-50) = 30`. -/
theorem c6_bucket_summation_witness :
    (0 : ℚ) < 2 ∧
    mapGet (accumulate
        [(⟨JVal.num 2, JVal.num 100, JVal.vundef, []⟩, [some (JVal.num 0, JVal.num 110)]),
         (⟨JVal.num 1, JVal.num 50, JVal.vundef, []⟩, [some (JVal.num 3600000, JVal.num 60)])]
        172800000 7).profitMap 0 =
      some (2 * (110 - 100) + 1 * (60 - 50)) := by
  refine ⟨by norm_num, ?_⟩
  refine c6_bucket_summation 2 100 110 0 1 50 60 3600000 172800000 7 0
    JVal.vundef JVal.vundef [] [] (by norm_num) (by norm_num) ?_ ?_ ?_ ?_
  · rw [bucketTimestamp_num]
    norm_num [ONE_HOUR_MS]
  · rw [bucketTimestamp_num]
    norm_num [ONE_HOUR_MS]
  · norm_num [windowStartOf, ONE_HOUR_MS]
  · norm_num [nowBucketOf, ONE_HOUR_MS]

/-- **C7** (amended): for a holding with positive quantity, a finite
`currentPrice` and at least one usable in-window historical sample, the
reconstruction adds the live contribution `qty * (currentPrice - avg)`
into the accumulator at the now bucket, on top of whatever the holding's
historical samples accumulated there.  (A holding with *no* usable
samples returns early and contributes nothing — see the counterexample —
so the claim's "regardless of what historical samples the holding has"
holds only with this non-empty proviso.) -/
theorem c7_live_price_added (nowBucket windowStart : ℚ) (st : AccState)
    (holding : ChartHolding) (coinData : List RawChartPoint) (cp : ℚ)
    (hq : 0 < (toFiniteNumber holding.quantity).getD 0)
    (hm : ¬ buildPriceMap windowStart coinData = [])
    (hcp : toFiniteNumber holding.currentPrice = some cp) :
    mapGet (processHolding nowBucket windowStart st holding coinData).profitMap nowBucket =
      some ((mapGet (accumulateEntries ((toFiniteNumber holding.quantity).getD 0)
          ((toFiniteNumber holding.avgBuyPrice).getD 0) st
          (List.insertionSort (fun x y : ℚ × ℚ => x.1 ≤ y.1)
            (buildPriceMap windowStart coinData))).profitMap nowBucket).getD 0 +
        (toFiniteNumber holding.quantity).getD 0 *
          (cp - (toFiniteNumber holding.avgBuyPrice).getD 0)) := by
  simp only [processHolding]
  rw [if_neg (not_le.mpr hq), if_neg hm, hcp]
  simp only [addProfitAt]
  exact mapGet_mapSet_self _ _ _

/-- **C7** witness: a holding (qty 1, avg 50, live price 60) with one
usable sample gets its live contribution `1*(60-50)` added at the now
bucket. -/
theorem c7_live_price_added_witness :
    (0 : ℚ) < (toFiniteNumber (JVal.num 1)).getD 0 ∧
    mapGet (processHolding 0 (-518400000) ⟨[], []⟩
        ⟨JVal.num 1, JVal.num 50, JVal.num 60, []⟩
        [some (JVal.num (-86400000), JVal.num 55)]).profitMap 0 =
      some ((mapGet (accumulateEntries ((toFiniteNumber (JVal.num 1)).getD 0)
          ((toFiniteNumber (JVal.num 50)).getD 0) ⟨[], []⟩
          (List.insertionSort (fun x y : ℚ × ℚ => x.1 ≤ y.1)
            (buildPriceMap (-518400000)
              [some (JVal.num (-86400000), JVal.num 55)]))).profitMap 0).getD 0 +
        (toFiniteNumber (JVal.num 1)).getD 0 *
          (60 - (toFiniteNumber (JVal.num 50)).getD 0)) := by
  have hpm : buildPriceMap (-518400000) [some (JVal.num (-86400000), JVal.num 55)] =
      [(-86400000, 55)] := by
    refine buildPriceMap_singleton _ _ _ _ ?_ (by norm_num)
    rw [bucketTimestamp_num]
    norm_num [ONE_HOUR_MS]
  refine ⟨by norm_num [toFiniteNumber], ?_⟩
  exact c7_live_price_added 0 (-518400000) ⟨[], []⟩
    ⟨JVal.num 1, JVal.num 50, JVal.num 60, []⟩
    [some (JVal.num (-86400000), JVal.num 55)] 60
    (by norm_num [toFiniteNumber]) (by rw [hpm]; simp) rfl

/-- **C7** (counterexample): holding B (qty 1, avg 50, live price 60,
finite) has no usable historical samples; holding A's live price has
already populated the now bucket, so the aggregate fallback is skipped
and B's live contribution `1*(60-50) = 10` is never added: the
accumulator at the now bucket holds only A's `1*(5-0) = 5`, not 15 —
refuting "always adds ... regardless of what historical samples the
holding has". -/
theorem c7_no_sample_counterexample :
    mapGet (accumulate
        [(⟨JVal.num 1, JVal.num 0, JVal.num 5, []⟩,
          [some (JVal.num (-86400000), JVal.num 2)]),
         (⟨JVal.num 1, JVal.num 50, JVal.num 60, []⟩, [])]
        0 7).profitMap (nowBucketOf 0) = some 5 ∧
    (5 : ℚ) ≠ 5 + 1 * (60 - 50) := by
  constructor
  · norm_num [accumulate, processHolding, resolveChartData, buildPriceMap,
      accumulateEntries, addProfitAt, mapGet, mapSet, setAdd, bucketTimestamp,
      toFiniteNumber, nowBucketOf, windowStartOf, ONE_HOUR_MS, currentProfitOf,
      List.insertionSort, List.orderedInsert, List.find?, List.filter]
  · norm_num

/-- **C1**: whenever the reconstruction yields a non-empty series, the
re-baseline step makes the last point's value exactly 0, and every point
`i` of the output equals `pre[last].value - pre[i].value` where `pre` is
the pre-baseline absolute-profit series. -/
theorem rebaseline_eq_of_getLast? (l : List TimePoint) (lp : TimePoint)
    (h : l.getLast? = some lp) :
    rebaseline l = l.map (fun p => { p with value := lp.value - p.value }) := by
  unfold rebaseline
  rw [h]

theorem c1_rebaseline_invariant (items : List ChartItem) (now chartDays : ℚ)
    (h : buildProfitChart items now chartDays ≠ []) :
    ((buildProfitChart items now chartDays).getLast?.map TimePoint.value) = some 0 ∧
    ∀ i : ℕ,
      ((buildProfitChart items now chartDays).get? i).map TimePoint.value =
        Option.map₂ (fun lastPoint p => TimePoint.value lastPoint - TimePoint.value p)
          (buildChartArray items now chartDays).getLast?
          ((buildChartArray items now chartDays).get? i) := by
  unfold buildProfitChart at h ⊢
  cases hl : (buildChartArray items now chartDays).getLast? with
  | none =>
      rcases List.getLast?_eq_none_iff.mp hl with hnil
      rw [hnil] at h
      exact absurd rfl h
  | some lp =>
      rw [rebaseline_eq_of_getLast? _ lp hl]
      constructor
      · rw [List.getLast?_map, hl]
        simp
      · intro i
        rw [List.get?_map]
        cases hi : (buildChartArray items now chartDays).get? i with
        | none => simp [hi, Option.map₂]
        | some p => simp [hi, Option.map₂]

/-- **C1** witness: an empty holdings list still yields a one-point
series (the forced now-bucket entry), whose single point re-baselines
to 0. -/
theorem c1_rebaseline_witness :
    buildProfitChart [] 0 7 ≠ [] ∧
    ((buildProfitChart [] 0 7).getLast?.map TimePoint.value) = some 0 := by
  have hne : buildProfitChart [] 0 7 ≠ [] := by
    norm_num [buildProfitChart, rebaseline, buildChartArray, chartArrayOf, accumulate,
      currentProfitOf, mapGet, mapSet, setAdd, nowBucketOf, windowStartOf, ONE_HOUR_MS,
      List.insertionSort, List.orderedInsert, totalCostBasisOf,
      buildPortfolioFallbackSeries]
  exact ⟨hne, (c1_rebaseline_invariant [] 0 7 hne).1⟩

theorem foldl_filter_of_skipped {α β : Type} (p : α → Bool) (f : β → α → β)
    (hf : ∀ b a, p a = false → f b a = b) :
    ∀ (l : List α) (b : β), (l.filter p).foldl f b = l.foldl f b := by
  intro l
  induction l with
  | nil => intro b; rfl
  | cons a t ih =>
      intro b
      cases hp : p a with
      | true => simp [List.filter_cons, hp, ih]
      | false => simp [List.filter_cons, hp, ih, hf b a hp]

theorem processHolding_skip (nowBucket windowStart : ℚ) (st : AccState)
    (holding : ChartHolding) (coinData : List RawChartPoint)
    (hq : (toFiniteNumber holding.quantity).getD 0 ≤ 0) :
    processHolding nowBucket windowStart st holding coinData = st := by
  unfold processHolding
  rw [if_pos hq]

theorem currentProfitOf_filter_quantity (items : List ChartItem) :
    currentProfitOf (items.filter
      (fun it => 0 < (toFiniteNumber it.1.quantity).getD 0)) =
      currentProfitOf items := by
  unfold currentProfitOf
  refine foldl_filter_of_skipped _ _ ?_ items 0
  intro b it hp
  have hq : (toFiniteNumber it.1.quantity).getD 0 ≤ 0 :=
    not_lt.mp (of_decide_eq_false hp)
  simp [if_pos hq]

/-- **C5** (amended): removing every holding whose coerced quantity is
`≤ 0` leaves the accumulation-path chart array (timestamps and values)
unchanged: both the per-holding accumulation loop and the aggregate
now-bucket fallback skip such holdings.  (The portfolio-level fallback
synthesizer `buildPortfolioFallbackSeries` is *not* quantity-gated — see
the counterexample — so the claim's fallback conjunct fails.) -/
theorem c5_quantity_gating_accumulation (items : List ChartItem) (now chartDays : ℚ) :
    chartArrayOf (items.filter
      (fun it => 0 < (toFiniteNumber it.1.quantity).getD 0)) now chartDays =
      chartArrayOf items now chartDays := by
  have hacc : accumulate (items.filter
      (fun it => 0 < (toFiniteNumber it.1.quantity).getD 0)) now chartDays =
      accumulate items now chartDays := by
    simp only [accumulate]
    rw [currentProfitOf_filter_quantity]
    rw [foldl_filter_of_skipped
      (fun it : ChartItem => 0 < (toFiniteNumber it.1.quantity).getD 0) _ ?_ items]
    intro st it hp
    have hq : (toFiniteNumber it.1.quantity).getD 0 ≤ 0 :=
      not_lt.mp (of_decide_eq_false hp)
    exact processHolding_skip _ _ st it.1 _ hq
  unfold chartArrayOf
  rw [hacc]

/-- **C5** (counterexample): the portfolio-level fallback path is not
quantity-gated.  A single holding with quantity 0 and a 2-point
sparkline makes `buildPortfolioFallbackSeries` emit a (60-point, all
zero) series, while removing that `quantity ≤ 0` holding leaves an empty
input and the empty series — the output changes. -/
theorem c5_quantity_gating_counterexample :
    buildPortfolioFallbackSeries [⟨JVal.num 0, JVal.num 0, JVal.vnull, [1, 2]⟩] 7 0 ≠
      buildPortfolioFallbackSeries [] 7 0 := by
  intro hEq
  have hr : buildPortfolioFallbackSeries ([] : List ChartHolding) 7 0 = [] := rfl
  rw [hr] at hEq
  simp only [buildPortfolioFallbackSeries] at hEq
  rw [if_neg (by simp)] at hEq
  rw [if_neg (by norm_num [fallbackMaxPoints, List.foldl])] at hEq
  have hN : (⌊fallbackTargetPoints
      [(⟨JVal.num 0, JVal.num 0, JVal.vnull, [1, 2]⟩ : ChartHolding)] 7⌋).toNat = 60 := by
    norm_num [fallbackTargetPoints, fallbackMaxPoints, List.foldl, max_def]
    decide
  have h0 := List.forall_none_of_filterMap_eq_nil hEq 0
    (by rw [List.mem_range, hN]; norm_num)
  have hval : fallbackValueAt
      [(⟨JVal.num 0, JVal.num 0, JVal.vnull, [1, 2]⟩ : ChartHolding)] 7 0 = some 0 := by
    norm_num [fallbackValueAt, List.foldl]
  rw [hval] at h0
  exact Option.noConfusion h0

/-! ## Nodup and sortedness of the accumulation-path timestamps -/

theorem setAdd_nodup (s : List ℚ) (x : ℚ) (h : s.Nodup) : (setAdd s x).Nodup := by
  unfold setAdd
  by_cases hx : x ∈ s
  · rwa [if_pos hx]
  · rw [if_neg hx]
    simp [List.nodup_append, h, hx]

theorem foldl_preserves {α β : Type} (P : β → Prop) (f : β → α → β)
    (hf : ∀ b a, P b → P (f b a)) :
    ∀ (l : List α) (b : β), P b → P (l.foldl f b) := by
  intro l
  induction l with
  | nil => intro b hb; exact hb
  | cons a t ih => intro b hb; exact ih _ (hf b a hb)

theorem addProfitAt_nodup (st : AccState) (t c : ℚ)
    (h : st.allTimestamps.Nodup) : (addProfitAt st t c).allTimestamps.Nodup :=
  setAdd_nodup _ _ h

theorem processHolding_nodup (nowBucket windowStart : ℚ) (st : AccState)
    (holding : ChartHolding) (coinData : List RawChartPoint)
    (h : st.allTimestamps.Nodup) :
    (processHolding nowBucket windowStart st holding coinData).allTimestamps.Nodup := by
  have h1 : (accumulateEntries ((toFiniteNumber holding.quantity).getD 0)
      ((toFiniteNumber holding.avgBuyPrice).getD 0) st
      (List.insertionSort (fun a b : ℚ × ℚ => a.1 ≤ b.1)
        (buildPriceMap windowStart coinData))).allTimestamps.Nodup := by
    unfold accumulateEntries
    exact foldl_preserves (fun s : AccState => s.allTimestamps.Nodup) _
      (fun s e hs => addProfitAt_nodup s e.1 _ hs) _ st h
  simp only [processHolding]
  split
  · exact h
  · split
    · exact h
    · split
      · exact addProfitAt_nodup _ _ _ h1
      · exact h1

theorem accumulate_nodup (items : List ChartItem) (now chartDays : ℚ) :
    (accumulate items now chartDays).allTimestamps.Nodup := by
  simp only [accumulate]
  have hst := foldl_preserves (fun st : AccState => st.allTimestamps.Nodup)
    (fun st it => processHolding (nowBucketOf now) (windowStartOf now chartDays) st it.1
      (resolveChartData it.1 it.2 now chartDays))
    (fun st it hs => processHolding_nodup _ _ st it.1 _ hs) items ⟨[], []⟩ (by simp)
  split
  · exact hst
  · exact setAdd_nodup _ _ hst

theorem chartArrayOf_timestamps (items : List ChartItem) (now chartDays : ℚ) :
    (chartArrayOf items now chartDays).map TimePoint.timestamp =
      List.insertionSort (fun a b : ℚ => a ≤ b)
        ((accumulate items now chartDays).allTimestamps.filter
          (fun t => windowStartOf now chartDays ≤ t)) := by
  simp only [chartArrayOf]
  rw [List.map_map]
  exact (List.map_congr_left fun t _ => rfl).trans (List.map_id _)

theorem chartArrayOf_sorted (items : List ChartItem) (now chartDays : ℚ) :
    List.Sorted (fun a b : ℚ => a < b)
      ((chartArrayOf items now chartDays).map TimePoint.timestamp) := by
  rw [chartArrayOf_timestamps]
  have hsorted := List.sorted_insertionSort (fun a b : ℚ => a ≤ b)
    ((accumulate items now chartDays).allTimestamps.filter
      (fun t => windowStartOf now chartDays ≤ t))
  have hnodup : (List.insertionSort (fun a b : ℚ => a ≤ b)
      ((accumulate items now chartDays).allTimestamps.filter
        (fun t => windowStartOf now chartDays ≤ t))).Nodup :=
    (List.perm_insertionSort _ _).nodup_iff.mpr
      ((accumulate_nodup items now chartDays).filter _)
  exact hsorted.lt_of_le hnodup

theorem chartArrayOf_lower_bound (items : List ChartItem) (now chartDays : ℚ)
    (p : TimePoint) (hp : p ∈ chartArrayOf items now chartDays) :
    windowStartOf now chartDays ≤ p.timestamp := by
  have h1 : p.timestamp ∈ (chartArrayOf items now chartDays).map TimePoint.timestamp :=
    List.mem_map_of_mem _ hp
  rw [chartArrayOf_timestamps] at h1
  have h2 := (List.perm_insertionSort _ _).mem_iff.mp h1
  exact of_decide_eq_true (List.mem_filter.mp h2).2

/-! ## The fallback branch: window bound and sortedness -/

theorem fallbackTargetPoints_ge (holdings : List ChartHolding) (periodDays : ℚ) :
    (60 : ℚ) ≤ fallbackTargetPoints holdings periodDays :=
  le_trans (le_max_left 60 (periodDays * 2)) (le_max_right _ _)

theorem fallbackStepMs_eq (holdings : List ChartHolding) (periodDays : ℚ) :
    fallbackStepMs holdings periodDays =
      periodDays * 24 / (fallbackTargetPoints holdings periodDays - 1) * ONE_HOUR_MS := by
  have h1 : (1 : ℚ) ≤ fallbackTargetPoints holdings periodDays - 1 := by
    have := fallbackTargetPoints_ge holdings periodDays
    linarith
  unfold fallbackStepMs
  rw [max_eq_right h1, if_pos (by linarith)]

theorem fallbackStepMs_pos (holdings : List ChartHolding) (periodDays : ℚ)
    (hd : 0 < periodDays) : 0 < fallbackStepMs holdings periodDays := by
  rw [fallbackStepMs_eq]
  have h1 : (0 : ℚ) < fallbackTargetPoints holdings periodDays - 1 := by
    have := fallbackTargetPoints_ge holdings periodDays
    linarith
  have h2 : (0 : ℚ) < ONE_HOUR_MS := by norm_num [ONE_HOUR_MS]
  exact mul_pos (div_pos (by linarith) h1) h2

theorem fallbackStepMs_mul (holdings : List ChartHolding) (periodDays : ℚ) :
    fallbackStepMs holdings periodDays * (fallbackTargetPoints holdings periodDays - 1) =
      periodDays * (24 * ONE_HOUR_MS) := by
  have h1 : fallbackTargetPoints holdings periodDays - 1 ≠ 0 := by
    have := fallbackTargetPoints_ge holdings periodDays
    intro h0
    linarith
  rw [fallbackStepMs_eq]
  field_simp
  ring

theorem buildPortfolioFallbackSeries_lower_bound (holdings : List ChartHolding)
    (periodDays now : ℚ) (hd : 0 < periodDays) (p : TimePoint)
    (hp : p ∈ buildPortfolioFallbackSeries holdings periodDays now) :
    now - periodDays * (24 * ONE_HOUR_MS) ≤ p.timestamp := by
  unfold buildPortfolioFallbackSeries at hp
  split at hp
  · exact absurd hp (List.not_mem_nil p)
  · split at hp
    · exact absurd hp (List.not_mem_nil p)
    · rcases List.mem_filterMap.mp hp with ⟨i, hi, hfi⟩
      rcases hv : fallbackValueAt holdings periodDays i with _ | v
      · rw [hv] at hfi
        exact absurd hfi (by simp)
      · rw [hv] at hfi
        rw [Option.map_some'] at hfi
        have ht : p.timestamp = now - fallbackStepMs holdings periodDays *
            (fallbackTargetPoints holdings periodDays - 1) +
            (i : ℚ) * fallbackStepMs holdings periodDays := by
          rw [← Option.some.inj hfi]
        rw [ht, fallbackStepMs_mul]
        have hstep := fallbackStepMs_pos holdings periodDays hd
        have hnn : (0 : ℚ) ≤ (i : ℚ) * fallbackStepMs holdings periodDays :=
          mul_nonneg (by positivity) (le_of_lt hstep)
        linarith

theorem buildPortfolioFallbackSeries_sorted (holdings : List ChartHolding)
    (periodDays now : ℚ) (hd : 0 < periodDays) :
    List.Sorted (fun a b : ℚ => a < b)
      ((buildPortfolioFallbackSeries holdings periodDays now).map TimePoint.timestamp) := by
  unfold buildPortfolioFallbackSeries
  split
  · exact List.sorted_nil
  · split
    · exact List.sorted_nil
    · rw [List.map_filterMap]
      refine List.Pairwise.filterMap _ ?_ (List.pairwise_lt_range _)
      intro i j hij x hx y hy
      rcases hvi : fallbackValueAt holdings periodDays i with _ | v
      · rw [hvi] at hx
        simp at hx
      · rcases hvj : fallbackValueAt holdings periodDays j with _ | w
        · rw [hvj] at hy
          simp at hy
        · rw [hvi] at hx
          rw [hvj] at hy
          simp only [Option.map_some', Option.mem_def, Option.some.injEq] at hx hy
          have hstep := fallbackStepMs_pos holdings periodDays hd
          have hc : ((i : ℚ)) < (j : ℚ) := by exact_mod_cast hij
          have hmul := mul_lt_mul_of_pos_right hc hstep
          rw [← hx, ← hy]
          linarith

theorem rebaseline_map_timestamp (l : List TimePoint) :
    (rebaseline l).map TimePoint.timestamp = l.map TimePoint.timestamp := by
  cases hl : l.getLast? with
  | none =>
      rw [List.getLast?_eq_none_iff.mp hl]
      rfl
  | some lp =>
      rw [rebaseline_eq_of_getLast? l lp hl, List.map_map]
      exact List.map_congr_left fun p _ => rfl

theorem buildChartArray_lower_bound (items : List ChartItem) (now chartDays : ℚ)
    (hd : 0 < chartDays) (p : TimePoint)
    (hp : p ∈ buildChartArray items now chartDays) :
    now - chartDays * (24 * ONE_HOUR_MS) ≤ p.timestamp := by
  revert hp
  simp only [buildChartArray]
  split
  · intro hp
    rcases List.mem_map.mp hp with ⟨r, hr, hrq⟩
    have hb := buildPortfolioFallbackSeries_lower_bound (items.map Prod.fst)
      chartDays now hd r hr
    rw [← hrq]
    exact hb
  · intro hp
    have h1 := chartArrayOf_lower_bound items now chartDays p hp
    have hday : (0 : ℚ) < 24 * ONE_HOUR_MS := by norm_num [ONE_HOUR_MS]
    unfold windowStartOf at h1
    have hexp : (chartDays - 1) * (24 * ONE_HOUR_MS) =
        chartDays * (24 * ONE_HOUR_MS) - 24 * ONE_HOUR_MS := by ring
    linarith

theorem buildChartArray_sorted (items : List ChartItem) (now chartDays : ℚ)
    (hd : 0 < chartDays) :
    List.Sorted (fun a b : ℚ => a < b)
      ((buildChartArray items now chartDays).map TimePoint.timestamp) := by
  simp only [buildChartArray]
  split
  · rw [List.map_map]
    have hbase := buildPortfolioFallbackSeries_sorted (items.map Prod.fst)
      chartDays now hd
    have heq : (buildPortfolioFallbackSeries (items.map Prod.fst) chartDays now).map
        (TimePoint.timestamp ∘ fun p =>
          { p with value := p.value - totalCostBasisOf items }) =
        (buildPortfolioFallbackSeries (items.map Prod.fst) chartDays now).map
          TimePoint.timestamp :=
      List.map_congr_left fun r _ => rfl
    rw [heq]
    exact hbase
  · exact chartArrayOf_sorted items now chartDays

/-- **C4** (amended): every point of the reconstructed series has a
timestamp no earlier than `now - windowDays * dayMs` (the code's window
start is the even later `now - (windowDays-1) * dayMs`, and the fallback
series starts exactly at `now - windowDays * dayMs`), and the output is
strictly sorted by timestamp, hence has unique timestamps.  The claim's
*upper* bound (`≤` now's day bucket) does not hold: the code never clips
future-dated samples — see the counterexample. -/
theorem c4_window_and_sorted (items : List ChartItem) (now chartDays : ℚ)
    (hdays : 0 < chartDays) :
    (∀ p ∈ buildProfitChart items now chartDays,
        now - chartDays * (24 * ONE_HOUR_MS) ≤ p.timestamp) ∧
    List.Sorted (fun a b : ℚ => a < b)
      ((buildProfitChart items now chartDays).map TimePoint.timestamp) := by
  constructor
  · intro p hp
    have h1 : p.timestamp ∈ (buildProfitChart items now chartDays).map TimePoint.timestamp :=
      List.mem_map_of_mem _ hp
    rw [buildProfitChart, rebaseline_map_timestamp] at h1
    rcases List.mem_map.mp h1 with ⟨q, hq, hqt⟩
    rw [← hqt]
    exact buildChartArray_lower_bound items now chartDays hdays q hq
  · rw [buildProfitChart, rebaseline_map_timestamp]
    exact buildChartArray_sorted items now chartDays hdays

/-- **C4** witness: with no holdings, `now = 0` and a 7-day window, the
one-point output satisfies the window lower bound and is strictly
sorted. -/
theorem c4_window_and_sorted_witness :
    (0 : ℚ) < 7 ∧
    (∀ p ∈ buildProfitChart [] 0 7, (0 : ℚ) - 7 * (24 * ONE_HOUR_MS) ≤ p.timestamp) ∧
    List.Sorted (fun a b : ℚ => a < b)
      ((buildProfitChart [] 0 7).map TimePoint.timestamp) :=
  ⟨by norm_num, c4_window_and_sorted [] 0 7 (by norm_num)⟩

/-- **C4** (counterexample): a sample dated 10 days in the future
(bucket `864000000` with `now = 0`, `nowBucket = 0`) is not clipped: the
output contains a point at timestamp `864000000 > 0`, violating the
claim's upper bound `≤` now's day bucket. -/
theorem c4_upper_bound_counterexample :
    ¬ ∀ p ∈ buildProfitChart
        [(⟨JVal.num 1, JVal.num 0, JVal.num 5, []⟩,
          [some (JVal.num 864000000, JVal.num 2)])] 0 7,
      p.timestamp ≤ nowBucketOf 0 := by
  have harr : chartArrayOf
      [(⟨JVal.num 1, JVal.num 0, JVal.num 5, []⟩,
        [some (JVal.num 864000000, JVal.num 2)])] 0 7 =
      [⟨0, 5⟩, ⟨864000000, 2⟩] := by
    norm_num [chartArrayOf, accumulate, processHolding, resolveChartData, buildPriceMap,
      accumulateEntries, addProfitAt, mapGet, mapSet, setAdd, bucketTimestamp,
      toFiniteNumber, nowBucketOf, windowStartOf, ONE_HOUR_MS, currentProfitOf,
      List.insertionSort, List.orderedInsert]
  have hchart : buildProfitChart
      [(⟨JVal.num 1, JVal.num 0, JVal.num 5, []⟩,
        [some (JVal.num 864000000, JVal.num 2)])] 0 7 =
      [⟨0, -3⟩, ⟨864000000, 0⟩] := by
    rw [buildProfitChart]
    simp only [buildChartArray, harr]
    rw [if_neg (by simp)]
    rw [rebaseline_eq_of_getLast? [⟨0, 5⟩, ⟨864000000, 2⟩] ⟨864000000, 2⟩ rfl]
    norm_num
  intro hAll
  have h2 := hAll ⟨864000000, 0⟩ (by rw [hchart]; simp)
  norm_num [nowBucketOf, ONE_HOUR_MS] at h2
